import Mathlib

/-!
Verification of the MariolaMLCryptoTradingUtils feature-engineering and
fetch pipeline.  Columnar pandas tables are embedded shallowly: a numeric
series is a `List ℚ`, a possibly-NaN series value is an `Option ℚ` (`none`
models pandas/numpy NaN), and dataframe operations become explicit list
transformations.  Each definition names the Python function or column
family it embeds.
-/

namespace Mariola

/-- Pandas `series.rolling(window=w)` applied at row `t`: the window is the
`w` rows ending at `t`; it is defined (non-NaN) only when `t` is a valid row
and at least `w` rows exist up to `t`. -/
def rollingApply (f : List ℚ → ℚ) (xs : List ℚ) (w t : ℕ) : Option ℚ :=
  if t < xs.length ∧ w ≤ t + 1 then some (f ((xs.drop (t + 1 - w)).take w)) else none

/-- Minimum of a list of rationals (0 on the empty list, which callers avoid). -/
def qmin : List ℚ → ℚ
  | [] => 0
  | x :: xs => xs.foldl min x

/-- Maximum of a list of rationals (0 on the empty list, which callers avoid). -/
def qmax : List ℚ → ℚ
  | [] => 0
  | x :: xs => xs.foldl max x

/-- Embeds `series.rolling(window=w).mean()` at row `t`. -/
def rollingMean (xs : List ℚ) (w t : ℕ) : Option ℚ :=
  rollingApply (fun l => l.sum / (w : ℚ)) xs w t

/-! ### Labeler columns (src/mariola/calc_utils.py, `prepare_df`)

`close_ma_{p}` (line 160), `max_close_in_{p}` / `min_close_in_{p}`
(lines 171-172) and the classification marker column
`marker_close_trade_success_in_next_{p}_periods` (lines 778-781; the same
formula appears in `add_ml_classification_etiquete`,
src/mariola/utils/df_utils.py lines 524-530). -/

/-- Embeds `result[f'close_ma_{p}'] = result['close'].rolling(window=p).mean()`. -/
def close_ma (closes : List ℚ) (p t : ℕ) : Option ℚ :=
  rollingMean closes p t

/-- Embeds `result[f'max_close_in_{p}'] = result[f'close_ma_{p}'].rolling(window=p).max()`:
a rolling (backward-looking) maximum of the `p`-period moving average, at row
`t` the maximum of `close_ma_{p}` over rows `t-p+1 .. t` (NaN when any of
those moving-average values is NaN). -/
def max_close_in (closes : List ℚ) (p t : ℕ) : Option ℚ :=
  if p ≤ t + 1 then
    let window := (List.range p).map (fun j => close_ma closes p (t + j + 1 - p))
    if window.all (·.isSome) then some (qmax (window.map (·.getD 0))) else none
  else none

/-- Embeds `result[f'min_close_in_{p}'] = result[f'close_ma_{p}'].rolling(window=p).min()`. -/
def min_close_in (closes : List ℚ) (p t : ℕ) : Option ℚ :=
  if p ≤ t + 1 then
    let window := (List.range p).map (fun j => close_ma closes p (t + j + 1 - p))
    if window.all (·.isSome) then some (qmin (window.map (·.getD 0))) else none
  else none

/-- The classification label column
`marker_close_trade_success_in_next_{p}_periods` at row `t`
(calc_utils.py lines 778-781):
`((max_close_in_p − close) / close * 100 ≥ success_threshold) &
((min_close_in_p − close) / close * 100 > drop_threshold)`.
A comparison against a NaN operand is False in pandas, hence the `false`
fallthrough when either rolling statistic is undefined. -/
def marker_close_trade_success (closes : List ℚ) (p : ℕ)
    (success_threshold drop_threshold : ℚ) (t : ℕ) : Bool :=
  let c := closes.getD t 0
  match max_close_in closes p t, min_close_in closes p t with
  | some mx, some mn =>
      decide ((mx - c) / c * 100 ≥ success_threshold) &&
      decide ((mn - c) / c * 100 > drop_threshold)
  | _, _ => false

/-- Modelled from the spec: the classification target the specification
describes (spec.md §4.3) — true iff the maximum close within the next
`p` rows after `t` gains at least `success_threshold` percent over
`close[t]` and the minimum close in that same future window never drops
below `drop_threshold` percent relative to `close[t]`. -/
def spec_trade_success (closes : List ℚ) (p : ℕ)
    (success_threshold drop_threshold : ℚ) (t : ℕ) : Bool :=
  let c := closes.getD t 0
  let window := (closes.drop (t + 1)).take p
  !window.isEmpty &&
  decide ((qmax window - c) / c * 100 ≥ success_threshold) &&
  decide ((qmin window - c) / c * 100 > drop_threshold)

/-! ### HistoricalFetcher (src/mariola/utils/api_utils.py, `get_full_historical_klines`)

A raw kline row is the 12-field tuple the exchange returns; the code only
ever indexes position 0 (`klines[-1][0]`, the open-time in milliseconds),
so a row is embedded as a plain `List ℚ` read positionally.  The external
client call `binance_client.get_historical_klines(symbol, interval,
start_str, limit)` is the API boundary of spec.md §6; it is modelled as a
function of the running call index (so mocks can fail on some calls), the
start cursor and the row limit, returning either an error (the exceptions
the decorator catches) or a list of rows.  `total_iterations` is computed
by lines 176-195 from the wall clock and the interval; it enters the
embedding as a parameter. -/

/-- Raw kline row as returned by the exchange API (a 12-field tuple read
positionally; only index 0, the open time, is inspected by the fetch loop). -/
abbrev Kline := List ℚ

/-- Reads `row[0]`, the open-time timestamp of a raw kline row. -/
def openTime (k : Kline) : ℚ := k.headD 0

/-- Errors the `exception_handler` decorator catches around the fetch:
exchange API errors, connection errors, timeouts (exception_handler.py
lines 45-59). -/
inductive ApiErr where
  | apiError
  | connectionError
  | timeoutError
deriving DecidableEq

/-- The external klines API boundary: call index, start cursor, row limit. -/
abbrev Api := ℕ → ℚ → ℕ → Except ApiErr (List Kline)

/-- Embeds the pagination loop of `get_full_historical_klines` (api_utils.py
lines 197-218): while the iteration budget lasts, request up to 1000 rows
from the cursor; an empty page ends the loop; otherwise append the page and
set the cursor to `klines[-1][0]`, the open time of the last row returned. -/
def fetchLoop (api : Api) : ℕ → ℕ → ℚ → List Kline → Except ApiErr (List Kline)
  | 0, _, _, acc => .ok acc
  | fuel + 1, callIdx, cursor, acc =>
    match api callIdx cursor 1000 with
    | .error e => .error e
    | .ok [] => .ok acc
    | .ok (k :: rest) =>
        fetchLoop api fuel (callIdx + 1) (openTime ((k :: rest).getLastD []))
          (acc ++ (k :: rest))

/-- Embeds `get_full_historical_klines` (api_utils.py lines 115-234) without
its decorator: probe the first available candle with `limit=1` (lines
160-165), return `None` when the probe is empty (lines 167-174), then run
the pagination loop and collect the rows into the final table (lines
197-234).  Exceptions propagate to the decorator as `Except.error`. -/
def get_full_historical_klines (api : Api) (start_str : ℚ) (total_iterations : ℕ) :
    Except ApiErr (Option (List Kline)) :=
  match api 0 start_str 1 with
  | .error e => .error e
  | .ok [] => .ok none
  | .ok (_ :: _) =>
      match fetchLoop api total_iterations 1 start_str [] with
      | .error e => .error e
      | .ok rows => .ok (some rows)

/-- Embeds the `@exception_handler()` decorator applied to
`get_full_historical_klines` (exception_handler.py lines 40-68 with
`default_return=None`): any caught exception is logged and the wrapped
call returns `None`. -/
def get_full_historical_klines_wrapped (api : Api) (start_str : ℚ)
    (total_iterations : ℕ) : Option (List Kline) :=
  match get_full_historical_klines api start_str total_iterations with
  | .error _ => none
  | .ok r => r

/-- Mock of the exchange boundary backed by a fixed history: a request with
cursor `start` and limit `n` returns the first `n` stored rows whose open
time is at least `start` (the documented behaviour of the real client's
`start_str`/`limit` parameters, spec.md §6). -/
def histApi (hist : List Kline) : Api := fun _ start limit =>
  .ok ((hist.filter (fun k => decide (start ≤ openTime k))).take limit)

/-- Two-row mock history with open times 0 and 1. -/
def histTwo : List Kline := [[0], [1]]

/-- Rows produced by fetching `histTwo` from cursor 0 with a 2-iteration
budget: the boundary row with open time 1 is fetched twice. -/
def dupRows : List Kline := [[0], [1], [1]]

/-- Mock API that raises on its first call (the probe) and would succeed on
every later call, distinguishing a single-attempt fetch from a retrying one. -/
def failFirstApi : Api := fun callIdx _ _ =>
  if callIdx == 0 then .error .connectionError else .ok [[0]]

/-- Mock API whose every call raises. -/
def allErrApi : Api := fun _ _ _ => .error .timeoutError

/-! ### SequenceBuilder (src/mariola/mariola_utils.py, `create_sequences`)

The reduced dataframe is a labelled columnar table: named columns over
row-major numeric data. -/

/-- A plain pandas dataframe: column labels plus row-major numeric data. -/
structure PDF where
  cols : List String
  rows : List (List ℚ)
deriving DecidableEq

/-- Embeds `df.drop(columns=[name])`: removes the named column from the
labels and the corresponding entry from every row. -/
def PDF.dropCol (df : PDF) (name : String) : PDF :=
  let i := df.cols.indexOf name
  { cols := df.cols.eraseIdx i, rows := df.rows.map (fun r => r.eraseIdx i) }

/-- Embeds `df.iloc[i][name]`: the value of the named column at row `i`. -/
def PDF.cell (df : PDF) (i : ℕ) (name : String) : ℚ :=
  (df.rows.getD i []).getD (df.cols.indexOf name) 0

/-- Embeds `create_sequences` (mariola_utils.py lines 121-184).  `none`
arguments model Python `None` (the guard of lines 161-167 raises and the
handler returns the `(None, None)` pair, modelled as a `none` result, as
does the `KeyError` from dropping an absent label column).  On success the
function returns the Python 2-tuple: the window list paired with either
the label list (training mode, `Sum.inl`) or the window list again
(inference mode, `Sum.inr`), mirroring
`return np.array(X), np.array(y) if training_mode else np.array(X)`. -/
def create_sequences (df_reduced : Option PDF) (lookback window_size : Option ℕ)
    (result_marker : Option String) (training_mode : Bool) :
    Option (List (List (List ℚ)) × (List ℚ ⊕ List (List (List ℚ)))) :=
  match df_reduced, lookback, window_size, result_marker with
  | some df, some lb, some w, some marker =>
    if training_mode = true ∧ marker ∉ df.cols then none
    else
      let df_features := if training_mode then df.dropCol marker else df
      let n := df.rows.length - lb - w
      let X := (List.range n).map (fun j => (df_features.rows.drop j).take w)
      if training_mode then
        some (X, Sum.inl ((List.range n).map (fun j => df.cell (w + j + lb) marker)))
      else
        some (X, Sum.inr X)
  | _, _, _, _ => none

/-! ### Normalizer (src/mariola/mariola_utils.py, `normalize_df`)

`select_dtypes` distinguishes numeric from non-numeric columns, so this
table keeps the dtype: a column is a list of rationals (float64/int64) or
a list of booleans. -/

/-- Column payload of a typed dataframe: numeric (float64/int64) or boolean. -/
inductive ColVals where
  | nums (vals : List ℚ)
  | bools (vals : List Bool)
deriving DecidableEq

/-- A typed columnar dataframe: labelled columns carrying their dtype. -/
abbrev TypedDF := List (String × ColVals)

/-- Number of rows stored in one column. -/
def colLen : ColVals → ℕ
  | .nums l => l.length
  | .bools l => l.length

/-- Embeds `df.empty`: true when the table has no columns or no rows. -/
def TypedDF.isEmpty : TypedDF → Bool
  | [] => true
  | (_, v) :: _ => colLen v == 0

/-- Embeds `df.columns`. -/
def TypedDF.colNames (df : TypedDF) : List String := df.map (·.1)

/-- Tests for a numeric (float64/int64) column. -/
def isNumCol : ColVals → Bool
  | .nums _ => true
  | .bools _ => false

/-- Embeds `df.select_dtypes(include=['float64', 'int64']).columns.tolist()`
(mariola_utils.py lines 54-56). -/
def TypedDF.numericNames (df : TypedDF) : List String :=
  (df.filter (fun c => isNumCol c.2)).map (·.1)

/-- Numeric payload of the named column (first match; empty if absent or
non-numeric). -/
def TypedDF.getNums (df : TypedDF) (name : String) : List ℚ :=
  match df.find? (fun c => c.1 == name) with
  | some (_, .nums l) => l
  | _ => []

/-- Payload of the named column, any dtype (used by the label re-attach
`df_normalized[result_marker] = result_df[result_marker].values`). -/
def TypedDF.getCol (df : TypedDF) (name : String) : ColVals :=
  match df.find? (fun c => c.1 == name) with
  | some (_, v) => v
  | none => .nums []

/-- The clip bound of `result_df[numeric_features].clip(lower=-1.8e308,
upper=1.8e308)` (mariola_utils.py lines 63-65): 1.8e308 as an exact
rational. -/
def clipBound : ℚ := 18 * 10 ^ 307

/-- Embeds the per-value clip to `[-1.8e308, 1.8e308]`. -/
def clipQ (x : ℚ) : ℚ := max (-clipBound) (min clipBound x)

/-- Embeds `MinMaxScaler(feature_range=(0, 1)).fit_transform` on one
column: affine map by the column's own observed minimum and maximum, with
sklearn's handle-zeros-in-scale rule replacing a zero data range by 1
(so a constant column maps to all zeros). -/
def minMaxScale (l : List ℚ) : List ℚ :=
  let m := qmin l
  let M := qmax l
  let scale := if M - m = 0 then 1 else 1 / (M - m)
  l.map (fun x => (x - m) * scale)

/-- Embeds `normalize_df` (mariola_utils.py lines 7-81).  The guards of
lines 43-48 raise `ValueError`, caught at lines 79-81 which log and return
`None`.  Afterwards: numeric columns are selected, the label column is
removed from the scaled set in training mode (lines 58-59), infinities are
replaced by 0 (line 61; a rational embedding carries no infinities, so the
replacement is the identity here), values are clipped (lines 63-65), each
column is min-max scaled (lines 67-72), and in training mode the label
column is re-attached unchanged at the end (lines 74-75). -/
def normalize_df (result_df : Option TypedDF) (training_mode : Bool)
    (result_marker : Option String) : Option TypedDF :=
  match result_df with
  | none => none
  | some df =>
    if TypedDF.isEmpty df then none
    else if training_mode &&
        (match result_marker with
         | some m => decide (m ∉ TypedDF.colNames df)
         | none => true) then none
    else
      let numeric_features := TypedDF.numericNames df
      let numeric_features :=
        match training_mode, result_marker with
        | true, some m => numeric_features.erase m
        | _, _ => numeric_features
      let df_normalized := numeric_features.map
        (fun nm => (nm, ColVals.nums (minMaxScale ((TypedDF.getNums df nm).map clipQ))))
      match training_mode, result_marker with
      | true, some m => some (df_normalized ++ [(m, TypedDF.getCol df m)])
      | _, _ => some df_normalized

/-! ### The vs-moving-average percentage family (src/mariola/calc_utils.py)

Every `..._pct_change_vs_ma_{p}` column (lines 165-169, 187-191, 209-213,
231-235 and the analogous indicator loops) is the same `np.where` guard
applied to a base series and its own rolling mean.  A `none` value models
a NaN cell: numpy evaluates `NaN != 0` as true and then propagates NaN
through the division, so an undefined moving average yields an undefined
percentage cell. -/

/-- Embeds `np.where(ma != 0, (x - ma) / ma * 100, 0)` pointwise against
the series' own `p`-period rolling mean. -/
def pct_change_vs_ma (xs : List ℚ) (p t : ℕ) : Option ℚ :=
  match rollingMean xs p t with
  | some ma => if ma ≠ 0 then some ((xs.getD t 0 - ma) / ma * 100) else some 0
  | none => none

/-! ### Candlestick-pattern detectors (src/mariola/utils/df_utils.py)

Pattern predicates read the open/high/low/close columns; `series.shift(k)`
at row `t` is the value at row `t - k`, NaN for the first `k` rows, and a
pandas comparison against NaN is False. -/

/-- OHLCV columns a pattern detector reads (`open` is a Lean keyword, so
the open column is the field `op`). -/
structure Ohlcv where
  op : List ℚ
  high : List ℚ
  low : List ℚ
  close : List ℚ
deriving DecidableEq

/-- Number of rows of the table. -/
def Ohlcv.nrows (df : Ohlcv) : ℕ := df.close.length

/-- Embeds `series.shift(k)` read at row `t`: `none` models the NaN rows. -/
def shiftAt (xs : List ℚ) (k t : ℕ) : Option ℚ :=
  if k ≤ t then some (xs.getD (t - k) 0) else none

/-- Pandas `<` between possibly-NaN values: False when either side is NaN. -/
def oLt (a b : Option ℚ) : Bool :=
  match a, b with
  | some x, some y => decide (x < y)
  | _, _ => false

/-- Pandas `>` between possibly-NaN values: False when either side is NaN. -/
def oGt (a b : Option ℚ) : Bool :=
  match a, b with
  | some x, some y => decide (y < x)
  | _, _ => false

/-- Float comparison `num / den > c` under numpy division semantics: a zero
denominator yields ±infinity (or NaN for 0/0), so the comparison holds
exactly when the numerator is positive. -/
def ratGt (num den c : ℚ) : Bool :=
  if den = 0 then decide (0 < num) else decide (c < num / den)

/-- Embeds the `morning_star` column (df_utils.py lines 83-87):
`(close.shift(2) < open.shift(2)) & (open.shift(1) < close.shift(1)) &
(close > open)` at row `t`. -/
def morning_star (df : Ohlcv) (t : ℕ) : Bool :=
  oLt (shiftAt df.close 2 t) (shiftAt df.op 2 t) &&
  oLt (shiftAt df.op 1 t) (shiftAt df.close 1 t) &&
  decide (df.op.getD t 0 < df.close.getD t 0)

/-- Embeds the `bullish_engulfing` column (df_utils.py lines 133-138):
`(open.shift(1) > close.shift(1)) & (open < close) & (open < close.shift(1))
& (close > open.shift(1))` at row `t`. -/
def bullish_engulfing (df : Ohlcv) (t : ℕ) : Bool :=
  oGt (shiftAt df.op 1 t) (shiftAt df.close 1 t) &&
  decide (df.op.getD t 0 < df.close.getD t 0) &&
  oLt (some (df.op.getD t 0)) (shiftAt df.close 1 t) &&
  oGt (some (df.close.getD t 0)) (shiftAt df.op 1 t)

/-- Embeds the `hammer` column (df_utils.py lines 37-41):
`((high - close) > 2 * (open - low)) & ((close - low) / (high - low) > 0.6)
& ((open - low) / (high - low) > 0.6)` at row `t`. -/
def hammer (df : Ohlcv) (t : ℕ) : Bool :=
  let o := df.op.getD t 0
  let h := df.high.getD t 0
  let l := df.low.getD t 0
  let c := df.close.getD t 0
  decide (2 * (o - l) < h - c) && ratGt (c - l) (h - l) (3 / 5) &&
    ratGt (o - l) (h - l) (3 / 5)

/-- Embeds `find_ml_morning_star_patterns` (df_utils.py lines 52-99): the
empty-table guard raises `ValueError`, which the decorator turns into
`None`; otherwise the boolean column is computed for every row. -/
def find_ml_morning_star_patterns (df : Ohlcv) : Option (List Bool) :=
  if df.nrows = 0 then none
  else some ((List.range df.nrows).map (morning_star df))

/-- Embeds `find_ml_bullish_engulfing_patterns` (df_utils.py lines 102-150). -/
def find_ml_bullish_engulfing_patterns (df : Ohlcv) : Option (List Bool) :=
  if df.nrows = 0 then none
  else some ((List.range df.nrows).map (bullish_engulfing df))

/-- Embeds `find_ml_hammer_patterns` (df_utils.py lines 8-49, restricted to
the `hammer` column itself). -/
def find_ml_hammer_patterns (df : Ohlcv) : Option (List Bool) :=
  if df.nrows = 0 then none
  else some ((List.range df.nrows).map (hammer df))

/-! ### IndicatorEngine frame behaviour (src/mariola/utils/df_utils.py,
`prepare_ml_df`, lines 566-647)

Python dataframe arguments are references to heap objects and the helper
calls mutate the object they are handed.  The heap is a list of dataframe
values; a reference is an index.  `prepare_ml_df` first copies the input
object (`result = df.copy()`, line 593) and then applies the body's column
computations — the helper-call sequence of lines 595-645, here abstracted
as a list of per-table transformations since the claim concerns the frame
behaviour, not the indicator arithmetic — to the fresh copy only. -/

/-- Reads the heap object behind a reference. -/
def heapGet (h : List PDF) (r : ℕ) : PDF := (h[r]?).getD ⟨[], []⟩

/-- In-place mutation of the referenced object by a table transformation
(what one decorated helper call does to the dataframe it is handed). -/
def applyStepAt (f : PDF → PDF) (h : List PDF) (r : ℕ) : List PDF :=
  h.set r (f (heapGet h r))

/-- Embeds the frame behaviour of `prepare_ml_df`: the guards of lines
587-591 (`None` settings or a `None`/empty dataframe raise, and the
decorator returns `None` leaving the heap untouched), the copy of line 593
allocating a fresh `result` object, and the helper-call body mutating only
that fresh object.  Returns the final heap and the reference to the result
object (`None` on failure). -/
def prepare_ml_df (body : List (PDF → PDF)) (heap : List PDF) (dfRef : ℕ)
    (settingsGiven : Bool) : List PDF × Option ℕ :=
  if !settingsGiven then (heap, none)
  else if (heapGet heap dfRef).rows.isEmpty then (heap, none)
  else
    let resultRef := heap.length
    let heap1 := heap ++ [heapGet heap dfRef]
    (body.foldl (fun hp f => applyStepAt f hp resultRef) heap1, some resultRef)

/-! ### Concrete inputs used by the counterexamples and witnesses -/

/-- Close series for the Labeler divergence: 28 rows at 100 followed by 14
rows at 200 (a flat run-up, then a 100-percent jump sustained for the whole
14-row forward window). -/
def cxCloses : List ℚ := List.replicate 28 100 ++ List.replicate 14 200

/-- Reduced table of the SequenceBuilder witnesses: two feature columns
plus the label column `marker`, six rows. -/
def seqDF : PDF :=
  { cols := ["pca1", "pca2", "marker"]
    rows := [[1, 9, 1], [2, 8, 0], [3, 7, 1], [4, 6, 0], [5, 5, 1], [6, 4, 0]] }

/-- Typed table of the Normalizer witnesses: two numeric feature columns
and a numeric label column. -/
def normDF : TypedDF :=
  [("feature1", ColVals.nums [1, 2, 3]),
   ("feature2", ColVals.nums [-1, -2, -3]),
   ("marker", ColVals.nums [1, 0, 1])]

/-- OHLCV rows of the pattern witnesses (the repository's own test fixture,
src/tests/test_calc_utils.py). -/
def ohlcvDF : Ohlcv :=
  { op := [100, 105, 90, 95, 110]
    high := [110, 110, 95, 100, 120]
    low := [95, 100, 85, 90, 105]
    close := [105, 90, 95, 110, 115] }

/-- One-row, one-column dataframe for the frame-behaviour witness. -/
def onePDF : PDF := { cols := ["close"], rows := [[1]] }

/-! ### Helper lemmas about list minima and maxima -/

set_option maxRecDepth 8000

/-- Folded minimum is below its seed. -/
theorem foldl_min_le_init (xs : List ℚ) : ∀ x : ℚ, xs.foldl min x ≤ x := by
  induction xs with
  | nil => intro x; exact le_refl x
  | cons y ys ih => intro x; exact le_trans (ih (min x y)) (min_le_left x y)

/-- Folded minimum is below every list element. -/
theorem foldl_min_le_mem (xs : List ℚ) : ∀ x a : ℚ, a ∈ xs → xs.foldl min x ≤ a := by
  induction xs with
  | nil => intro _ _ h; cases h
  | cons y ys ih =>
    intro x a h
    rcases List.mem_cons.mp h with rfl | h
    · exact le_trans (foldl_min_le_init ys (min x a)) (min_le_right x a)
    · exact ih (min x y) a h

/-- Folded minimum is the seed or a list element. -/
theorem foldl_min_mem (xs : List ℚ) : ∀ x : ℚ, xs.foldl min x = x ∨ xs.foldl min x ∈ xs := by
  induction xs with
  | nil => intro x; exact Or.inl rfl
  | cons y ys ih =>
    intro x
    rw [List.foldl_cons]
    rcases ih (min x y) with h | h
    · rcases min_choice x y with hc | hc
      · exact Or.inl (h.trans hc)
      · exact Or.inr (by rw [h, hc]; exact List.mem_cons_self y ys)
    · exact Or.inr (List.mem_cons_of_mem y h)

/-- Folded maximum is above its seed. -/
theorem foldl_max_ge_init (xs : List ℚ) : ∀ x : ℚ, x ≤ xs.foldl max x := by
  induction xs with
  | nil => intro x; exact le_refl x
  | cons y ys ih => intro x; exact le_trans (le_max_left x y) (ih (max x y))

/-- Folded maximum is above every list element. -/
theorem foldl_max_ge_mem (xs : List ℚ) : ∀ x a : ℚ, a ∈ xs → a ≤ xs.foldl max x := by
  induction xs with
  | nil => intro _ _ h; cases h
  | cons y ys ih =>
    intro x a h
    rcases List.mem_cons.mp h with rfl | h
    · exact le_trans (le_max_right x a) (foldl_max_ge_init ys (max x a))
    · exact ih (max x y) a h

/-- Folded maximum is the seed or a list element. -/
theorem foldl_max_mem (xs : List ℚ) : ∀ x : ℚ, xs.foldl max x = x ∨ xs.foldl max x ∈ xs := by
  induction xs with
  | nil => intro x; exact Or.inl rfl
  | cons y ys ih =>
    intro x
    rw [List.foldl_cons]
    rcases ih (max x y) with h | h
    · rcases max_choice x y with hc | hc
      · exact Or.inl (h.trans hc)
      · exact Or.inr (by rw [h, hc]; exact List.mem_cons_self y ys)
    · exact Or.inr (List.mem_cons_of_mem y h)

/-- The list minimum bounds every element from below. -/
theorem qmin_le {l : List ℚ} {a : ℚ} (h : a ∈ l) : qmin l ≤ a := by
  cases l with
  | nil => cases h
  | cons x xs =>
    rcases List.mem_cons.mp h with rfl | h
    · exact foldl_min_le_init xs a
    · exact foldl_min_le_mem xs x a h

/-- The list minimum of a nonempty list is an element. -/
theorem qmin_mem {l : List ℚ} (h : l ≠ []) : qmin l ∈ l := by
  cases l with
  | nil => exact absurd rfl h
  | cons x xs =>
    rcases foldl_min_mem xs x with h' | h'
    · rw [qmin, h']; exact List.mem_cons_self x xs
    · exact List.mem_cons_of_mem x h'

/-- The list maximum bounds every element from above. -/
theorem qmax_ge {l : List ℚ} {a : ℚ} (h : a ∈ l) : a ≤ qmax l := by
  cases l with
  | nil => cases h
  | cons x xs =>
    rcases List.mem_cons.mp h with rfl | h
    · exact foldl_max_ge_init xs a
    · exact foldl_max_ge_mem xs x a h

/-- The list maximum of a nonempty list is an element. -/
theorem qmax_mem {l : List ℚ} (h : l ≠ []) : qmax l ∈ l := by
  cases l with
  | nil => exact absurd rfl h
  | cons x xs =>
    rcases foldl_max_mem xs x with h' | h'
    · rw [qmax, h']; exact List.mem_cons_self x xs
    · exact List.mem_cons_of_mem x h'

/-! ### Claim C1 -/

/-- C1: the claim says the classification label at row `t` is true iff the
maximum close within the NEXT `marker_period` rows gains at least
`success_threshold` percent and the minimum close in that future window
stays above `drop_threshold` percent.  The code instead reads
`max_close_in_{p}` / `min_close_in_{p}`, which `prepare_df` computes as a
backward rolling max/min of the `p`-period moving average of close.  On a
close series flat at 100 for 28 rows and then jumping to 200 for the next
14 rows (settings `marker_period = 14`, `success_threshold = 5`,
`drop_threshold = -2`, the constants of `prepare_df`), at row 27 the code's
label is false while the claimed forward-window label is true. -/
theorem C1_label_code_diverges_from_forward_window :
    marker_close_trade_success cxCloses 14 5 (-2) 27 = false ∧
    spec_trade_success cxCloses 14 5 (-2) 27 = true := by
  with_unfolding_all decide

/-! ### Claim C2 -/

/-- C2 counterexample: the claim says the concatenation of all pages is an
ascending, duplicate-free table and that the cursor advances one unit past
the last row's timestamp.  Fetching a two-row history (open times 0, 1)
with a two-iteration budget re-fetches the boundary row: open time 1
appears in two rows of the result. -/
theorem C2_counterexample_duplicate_open_time :
    get_full_historical_klines_wrapped (histApi histTwo) 0 2 = some dupRows ∧
    dupRows.countP (fun k => openTime k == 1) = 2 := by
  with_unfolding_all decide

/-- Every element of a nondecreasing nonempty list is bounded by its last
element. -/
theorem pairwise_le_getLastD :
    ∀ (l : List Kline) (x d : Kline),
      (x :: l).Pairwise (fun a b => openTime a ≤ openTime b) →
      ∀ a ∈ x :: l, openTime a ≤ openTime ((x :: l).getLastD d) := by
  intro l
  induction l with
  | nil =>
    intro x d _ a ha
    rcases List.mem_cons.mp ha with rfl | h
    · exact le_refl _
    · cases h
  | cons y t ih =>
    intro x d hp a ha
    rw [List.getLastD_cons]
    rcases List.mem_cons.mp ha with rfl | ha
    · have hmem : (y :: t).getLastD a ∈ y :: t := by
        rw [List.getLastD_cons]
        exact List.getLastD_mem_cons t y
      exact (List.pairwise_cons.mp hp).1 _ hmem
    · exact ih y x (List.pairwise_cons.mp hp).2 a ha

/-- Invariant of the pagination loop run against a history-backed mock:
from a nondecreasing accumulator bounded by the cursor, every successful
run returns a nondecreasing row list drawn from the accumulator or the
history. -/
theorem fetchLoop_histApi_sorted (hist : List Kline)
    (hh : hist.Pairwise (fun a b => openTime a < openTime b)) :
    ∀ (fuel callIdx : ℕ) (cursor : ℚ) (acc : List Kline),
      acc.Pairwise (fun a b => openTime a ≤ openTime b) →
      (∀ a ∈ acc, openTime a ≤ cursor) →
      ∀ res, fetchLoop (histApi hist) fuel callIdx cursor acc = Except.ok res →
        res.Pairwise (fun a b => openTime a ≤ openTime b) ∧
        ∀ r ∈ res, r ∈ acc ∨ r ∈ hist := by
  intro fuel
  induction fuel with
  | zero =>
    intro callIdx cursor acc hacc _ res hres
    simp only [fetchLoop, Except.ok.injEq] at hres
    subst hres
    exact ⟨hacc, fun r hr => Or.inl hr⟩
  | succ fuel ih =>
    intro callIdx cursor acc hacc hcur res hres
    simp only [fetchLoop, histApi] at hres
    rcases hpg : (hist.filter (fun k => decide (cursor ≤ openTime k))).take 1000 with
      _ | ⟨k, rest⟩
    · rw [hpg] at hres
      have h' : (Except.ok acc : Except ApiErr (List Kline)) = Except.ok res := hres
      injection h' with h''
      subst h''
      exact ⟨hacc, fun r hr => Or.inl hr⟩
    · rw [hpg] at hres
      have hsub : List.Sublist (k :: rest) hist := by
        rw [← hpg]
        exact (List.take_sublist _ _).trans (List.filter_sublist _)
      have hpagePW : (k :: rest).Pairwise (fun a b => openTime a ≤ openTime b) :=
        (List.Pairwise.sublist hsub hh).imp (fun hab => le_of_lt hab)
      have hpageCur : ∀ b ∈ k :: rest, cursor ≤ openTime b := by
        intro b hb
        have hb' : b ∈ hist.filter (fun k => decide (cursor ≤ openTime k)) := by
          apply List.mem_of_mem_take
          rw [hpg]
          exact hb
        exact of_decide_eq_true (List.mem_filter.mp hb').2
      have hlast_mem : (k :: rest).getLastD [] ∈ k :: rest := by
        rw [List.getLastD_cons]
        exact List.getLastD_mem_cons rest k
      have hacc' : (acc ++ k :: rest).Pairwise (fun a b => openTime a ≤ openTime b) :=
        List.pairwise_append.mpr
          ⟨hacc, hpagePW, fun a haa b hbb => (hcur a haa).trans (hpageCur b hbb)⟩
      have hcur' : ∀ a ∈ acc ++ k :: rest,
          openTime a ≤ openTime ((k :: rest).getLastD []) := by
        intro a ha
        rcases List.mem_append.mp ha with ha | ha
        · exact (hcur a ha).trans (hpageCur _ hlast_mem)
        · exact pairwise_le_getLastD rest k [] hpagePW a ha
      have hres' : fetchLoop (histApi hist) fuel (callIdx + 1)
          (openTime ((k :: rest).getLastD [])) (acc ++ k :: rest) = Except.ok res := hres
      obtain ⟨hpw, hmem⟩ := ih _ _ _ hacc' hcur' res hres'
      refine ⟨hpw, fun r hr => ?_⟩
      rcases hmem r hr with hin | hin
      · rcases List.mem_append.mp hin with hin | hin
        · exact Or.inl hin
        · exact Or.inr (hsub.subset hin)
      · exact Or.inr hin

/-- C2 amended: after each non-empty page the next request's start cursor
is set to exactly the open time of the last row returned (not one unit
past it), so consecutive pages overlap at that timestamp; over an
ascending history the concatenation of all pages is therefore a
nondecreasing — but not duplicate-free — table of rows drawn from the
history. -/
theorem C2_amended_fetch_nondecreasing (hist : List Kline) (start : ℚ)
    (ti : ℕ) (rows : List Kline)
    (hh : hist.Pairwise (fun a b => openTime a < openTime b))
    (h : get_full_historical_klines_wrapped (histApi hist) start ti = some rows) :
    rows.Pairwise (fun a b => openTime a ≤ openTime b) ∧ ∀ r ∈ rows, r ∈ hist := by
  unfold get_full_historical_klines_wrapped get_full_historical_klines at h
  simp only [histApi] at h
  rcases hpr : (hist.filter (fun k => decide (start ≤ openTime k))).take 1 with
    _ | ⟨k, rest⟩
  · rw [hpr] at h
    exact Option.noConfusion (h : (none : Option (List Kline)) = some rows)
  · rw [hpr] at h
    rcases hfl : fetchLoop (histApi hist) ti 1 start [] with e | res
    · rw [hfl] at h
      exact Option.noConfusion (h : (none : Option (List Kline)) = some rows)
    · rw [hfl] at h
      have h' : (some res : Option (List Kline)) = some rows := h
      injection h' with h''
      subst h''
      obtain ⟨hpw, hmem⟩ := fetchLoop_histApi_sorted hist hh ti 1 start []
        List.Pairwise.nil (fun a ha => absurd ha (List.not_mem_nil a)) res hfl
      exact ⟨hpw, fun r hr =>
        (hmem r hr).resolve_left (fun hc => absurd hc (List.not_mem_nil r))⟩

/-- C2 witness: the two-row history run instantiates the amended theorem;
the duplicated result is nondecreasing and drawn from the history. -/
theorem C2_amended_witness :
    histTwo.Pairwise (fun a b => openTime a < openTime b) ∧
    get_full_historical_klines_wrapped (histApi histTwo) 0 2 = some dupRows ∧
    (dupRows.Pairwise (fun a b => openTime a ≤ openTime b) ∧
      ∀ r ∈ dupRows, r ∈ histTwo) := by
  have h1 : histTwo.Pairwise (fun a b => openTime a < openTime b) := by
    with_unfolding_all decide
  have h2 : get_full_historical_klines_wrapped (histApi histTwo) 0 2 = some dupRows := by
    with_unfolding_all decide
  exact ⟨h1, h2, C2_amended_fetch_nondecreasing histTwo 0 2 dupRows h1 h2⟩

/-! ### Claim C3 -/

/-- C3 counterexample: the claim says a failing API call is retried (with
backoff, up to a bounded attempt count).  Against a mock API that raises
only on its very first call and would return data on every later call, the
fetch returns `None`: no second attempt is ever made, so no retry exists. -/
theorem C3_counterexample_no_retry :
    get_full_historical_klines_wrapped failFirstApi 0 5 = none ∧
    failFirstApi 1 0 1 = Except.ok [[0]] :=
  ⟨by with_unfolding_all decide, rfl⟩

/-- C3 amended: connectivity, rate-limit and malformed-response errors are
caught by the `exception_handler` decorator on the single attempt — there
is no retry and no backoff — and the call then returns an absent result
(`None`) instead of letting the exception propagate: if every API call
errors, the wrapped fetch returns `none`. -/
theorem C3_amended_errors_caught_single_attempt (api : Api) (start : ℚ) (ti : ℕ)
    (h : ∀ i s l, ∃ e, api i s l = Except.error e) :
    get_full_historical_klines_wrapped api start ti = none := by
  obtain ⟨e, he⟩ := h 0 start 1
  unfold get_full_historical_klines_wrapped get_full_historical_klines
  rw [he]

/-- C3 witness: the always-erroring mock API exhausts the attempt budget
and the wrapped fetch returns `none`. -/
theorem C3_amended_witness :
    (∀ i s l, ∃ e, allErrApi i s l = Except.error e) ∧
    get_full_historical_klines_wrapped allErrApi 0 3 = none :=
  ⟨fun _ _ _ => ⟨.timeoutError, rfl⟩,
   C3_amended_errors_caught_single_attempt allErrApi 0 3 (fun _ _ _ => ⟨.timeoutError, rfl⟩)⟩

/-! ### Claims C4 and C10 -/

/-- Reading a mapped range list below its length gives the mapped value. -/
theorem getD_map_range {α : Type} (n j : ℕ) (f : ℕ → α) (d : α) (h : j < n) :
    ((List.range n).map f).getD j d = f j := by
  rw [List.getD_eq_getElem _ _ (by simpa using h)]
  simp

/-- C4: in training mode with all arguments present and the label column in
the table, `create_sequences` produces exactly
`len − window_size − horizon` (window, label) pairs (0 when that quantity
is not positive, with no error), the window for start index
`i = window_size + j` is rows `[i − window_size, i)` with the label column
excluded, and the paired label is the label column's value at row
`i + horizon`. -/
theorem C4_create_sequences_training_shape (df : PDF) (lb w : ℕ) (marker : String)
    (hm : marker ∈ df.cols) :
    ∃ X y, create_sequences (some df) (some lb) (some w) (some marker) true =
        some (X, Sum.inl y) ∧
      X.length = df.rows.length - w - lb ∧
      y.length = df.rows.length - w - lb ∧
      ∀ j, j < df.rows.length - w - lb →
        X.getD j [] =
          ((df.rows.map (fun r => r.eraseIdx (df.cols.indexOf marker))).drop j).take w ∧
        y.getD j 0 =
          (df.rows.getD (w + j + lb) []).getD (df.cols.indexOf marker) 0 := by
  refine ⟨(List.range (df.rows.length - lb - w)).map
      (fun j => (((df.dropCol marker).rows).drop j).take w),
    (List.range (df.rows.length - lb - w)).map (fun j => df.cell (w + j + lb) marker),
    ?_, ?_, ?_, ?_⟩
  · simp only [create_sequences]
    rw [if_neg (by simp [hm])]
    rfl
  · simp only [List.length_map, List.length_range]
    omega
  · simp only [List.length_map, List.length_range]
    omega
  · intro j hj
    constructor
    · rw [getD_map_range _ _ _ _ (by omega)]
      rfl
    · rw [getD_map_range _ _ _ _ (by omega)]
      rfl

/-- C4 witness: the six-row reduced table with `lookback = 1`,
`window_size = 2` instantiates the training-mode shape theorem. -/
theorem C4_witness :
    "marker" ∈ seqDF.cols ∧
    (∃ X y, create_sequences (some seqDF) (some 1) (some 2) (some "marker") true =
        some (X, Sum.inl y) ∧
      X.length = seqDF.rows.length - 2 - 1 ∧
      y.length = seqDF.rows.length - 2 - 1 ∧
      ∀ j, j < seqDF.rows.length - 2 - 1 →
        X.getD j [] =
          ((seqDF.rows.map (fun r => r.eraseIdx (seqDF.cols.indexOf "marker"))).drop j).take 2 ∧
        y.getD j 0 =
          (seqDF.rows.getD (2 + j + 1) []).getD (seqDF.cols.indexOf "marker") 0) :=
  ⟨by decide, C4_create_sequences_training_shape seqDF 1 2 "marker" (by decide)⟩

/-- C10: in inference mode with all arguments present, `create_sequences`
returns a 2-tuple whose second component is the window list again (not a
single array), and the windows keep every column — the label column is not
dropped from the window contents. -/
theorem C10_inference_returns_windows_twice (df : PDF) (lb w : ℕ) (marker : String) :
    ∃ X, create_sequences (some df) (some lb) (some w) (some marker) false =
        some (X, Sum.inr X) ∧
      X.length = df.rows.length - lb - w ∧
      ∀ j, j < df.rows.length - lb - w → X.getD j [] = (df.rows.drop j).take w := by
  refine ⟨(List.range (df.rows.length - lb - w)).map (fun j => (df.rows.drop j).take w),
    ?_, ?_, ?_⟩
  · simp only [create_sequences]
    rw [if_neg (by simp)]
    rfl
  · simp
  · intro j hj
    rw [getD_map_range _ _ _ _ hj]

/-- C10 witness: the six-row reduced table in inference mode. -/
theorem C10_witness :
    ∃ X, create_sequences (some seqDF) (some 1) (some 2) (some "marker") false =
        some (X, Sum.inr X) ∧
      X.length = seqDF.rows.length - 1 - 2 ∧
      ∀ j, j < seqDF.rows.length - 1 - 2 → X.getD j [] = (seqDF.rows.drop j).take 2 :=
  C10_inference_returns_windows_twice seqDF 1 2 "marker"

/-! ### Claim C6 -/

/-- C6: every vs-moving-average percentage column guards division by zero —
at any row where the moving average is defined and equals 0 the column
holds the sentinel 0, and whenever the moving average is defined the
column value is defined (never NaN or infinite from the division). -/
theorem C6_pct_change_vs_ma_guards_zero_division (xs : List ℚ) (p t : ℕ) :
    (rollingMean xs p t = some 0 → pct_change_vs_ma xs p t = some 0) ∧
    (∀ m, rollingMean xs p t = some m → ∃ v, pct_change_vs_ma xs p t = some v) := by
  constructor
  · intro h
    simp [pct_change_vs_ma, h]
  · intro m h
    by_cases hm : m = 0
    · subst hm; simp [pct_change_vs_ma, h]
    · simp [pct_change_vs_ma, h, hm]

/-- C6 witness: a 3-row all-zero series has moving average 0 at row 2 and
the percentage column holds the sentinel 0 there. -/
theorem C6_witness :
    rollingMean [0, 0, 0] 3 2 = some 0 ∧ pct_change_vs_ma [0, 0, 0] 3 2 = some 0 :=
  ⟨by with_unfolding_all decide,
   (C6_pct_change_vs_ma_guards_zero_division [0, 0, 0] 3 2).1
     (by with_unfolding_all decide)⟩

/-! ### Claim C5 -/

/-- With unique column names, the lookup finds exactly the stored entry. -/
theorem find_col_eq (df : TypedDF) (hnodup : (TypedDF.colNames df).Nodup)
    (name : String) (v : ColVals) (h : (name, v) ∈ df) :
    df.find? (fun c => c.1 == name) = some (name, v) := by
  induction df with
  | nil => cases h
  | cons c t ih =>
    obtain ⟨n0, v0⟩ := c
    simp only [TypedDF.colNames, List.map_cons] at hnodup
    rcases List.mem_cons.mp h with hc | hmem
    · injection hc with h1 h2
      subst h1
      subst h2
      exact List.find?_cons_of_pos _ (by simp)
    · have hne : ¬((n0, v0).1 == name) = true := by
        intro hbeq
        have heq : n0 = name := by simpa using hbeq
        subst heq
        exact (List.nodup_cons.mp hnodup).1
          (List.mem_map.mpr ⟨(n0, v), hmem, rfl⟩)
      rw [List.find?_cons_of_neg (p := fun c => c.1 == name) t hne]
      exact ih (List.nodup_cons.mp hnodup).2 hmem

/-- A numeric column's name is selected by the numeric dtype filter. -/
theorem mem_numericNames {df : TypedDF} {name : String} {l : List ℚ}
    (h : (name, ColVals.nums l) ∈ df) : name ∈ TypedDF.numericNames df := by
  unfold TypedDF.numericNames
  exact List.mem_map.mpr ⟨(name, ColVals.nums l), List.mem_filter.mpr ⟨h, rfl⟩, rfl⟩

/-- Clipping is the identity inside the clip bounds. -/
theorem clipQ_eq_self {x : ℚ} (h1 : -clipBound ≤ x) (h2 : x ≤ clipBound) :
    clipQ x = x := by
  unfold clipQ
  rw [min_eq_right h2, max_eq_right h1]

/-- Clipping a column inside the clip bounds is the identity. -/
theorem map_clipQ_eq {l : List ℚ} (h : ∀ x ∈ l, -clipBound ≤ x ∧ x ≤ clipBound) :
    l.map clipQ = l := by
  conv_rhs => rw [← List.map_id l]
  exact List.map_congr_left fun x hx => clipQ_eq_self (h x hx).1 (h x hx).2

/-- Every min-max scaled value lies in the unit interval. -/
theorem minMaxScale_bounds {l : List ℚ} : ∀ v ∈ minMaxScale l, 0 ≤ v ∧ v ≤ 1 := by
  intro v hv
  simp only [minMaxScale] at hv
  obtain ⟨x, hx, rfl⟩ := List.mem_map.mp hv
  have h1 : qmin l ≤ x := qmin_le hx
  have h2 : x ≤ qmax l := qmax_ge hx
  by_cases hc : qmax l - qmin l = 0
  · rw [if_pos hc]
    have hx' : x = qmin l := le_antisymm (by linarith [sub_eq_zero.mp hc]) h1
    rw [hx']
    simp
  · rw [if_neg hc]
    have hlt : 0 < qmax l - qmin l :=
      lt_of_le_of_ne (by linarith) (Ne.symm hc)
    constructor
    · exact mul_nonneg (by linarith) (by positivity)
    · rw [mul_one_div]
      exact (div_le_one hlt).mpr (by linarith)

/-- A non-constant column scales to exact minimum 0 and maximum 1. -/
theorem minMaxScale_extremes {l : List ℚ} (hne : ∃ a ∈ l, ∃ b ∈ l, a ≠ b) :
    qmin (minMaxScale l) = 0 ∧ qmax (minMaxScale l) = 1 := by
  obtain ⟨a, ha, b, hb, hab⟩ := hne
  have hlnil : l ≠ [] := by rintro rfl; cases ha
  have hlt : qmin l < qmax l := by
    rcases lt_or_le (qmin l) (qmax l) with h | h
    · exact h
    · exfalso
      have h1 := qmin_le ha
      have h2 := qmax_ge ha
      have h3 := qmin_le hb
      have h4 := qmax_ge hb
      exact hab (by linarith)
  have hpos : 0 < qmax l - qmin l := by linarith
  have hcne : qmax l - qmin l ≠ 0 := ne_of_gt hpos
  have h0mem : (0 : ℚ) ∈ minMaxScale l := by
    simp only [minMaxScale]
    refine List.mem_map.mpr ⟨qmin l, qmin_mem hlnil, ?_⟩
    rw [sub_self, zero_mul]
  have h1mem : (1 : ℚ) ∈ minMaxScale l := by
    simp only [minMaxScale]
    refine List.mem_map.mpr ⟨qmax l, qmax_mem hlnil, ?_⟩
    rw [if_neg hcne, mul_one_div, div_self hcne]
  have hnil' : minMaxScale l ≠ [] := by
    intro hc
    rw [hc] at h0mem
    cases h0mem
  constructor
  · exact le_antisymm (qmin_le h0mem) (minMaxScale_bounds _ (qmin_mem hnil')).1
  · exact le_antisymm (minMaxScale_bounds _ (qmax_mem hnil')).2 (qmax_ge h1mem)

/-- C5: the Normalizer maps each numeric column included in the scaling
independently into the unit interval by its own observed min and max —
after transformation every included non-constant column attains minimum
exactly 0 and maximum exactly 1 — and the designated label column is
excluded from the transform and re-attached unchanged at the end. -/
theorem C5_normalize_df_minmax (df : TypedDF) (marker : String)
    (hnodup : (TypedDF.colNames df).Nodup)
    (hne : TypedDF.isEmpty df = false)
    (hm : marker ∈ TypedDF.colNames df) :
    ∃ out, normalize_df (some df) true (some marker) = some out ∧
      out.getLast? = some (marker, TypedDF.getCol df marker) ∧
      ∀ name l, (name, ColVals.nums l) ∈ df → name ≠ marker →
        (∀ x ∈ l, -clipBound ≤ x ∧ x ≤ clipBound) →
        ∃ vals, (name, ColVals.nums vals) ∈ out ∧
          (∀ v ∈ vals, 0 ≤ v ∧ v ≤ 1) ∧
          ((∃ a ∈ l, ∃ b ∈ l, a ≠ b) → qmin vals = 0 ∧ qmax vals = 1) := by
  refine ⟨((TypedDF.numericNames df).erase marker).map
      (fun nm => (nm, ColVals.nums (minMaxScale ((TypedDF.getNums df nm).map clipQ)))) ++
      [(marker, TypedDF.getCol df marker)], ?_, ?_, ?_⟩
  · simp [normalize_df, hne, hm]
  · exact List.getLast?_concat _
  · intro name l hmem hnm hbounds
    have hfind : df.find? (fun c => c.1 == name) = some (name, ColVals.nums l) :=
      find_col_eq df hnodup name _ hmem
    have hget : TypedDF.getNums df name = l := by
      simp [TypedDF.getNums, hfind]
    refine ⟨minMaxScale l, ?_, minMaxScale_bounds, fun hne' => minMaxScale_extremes hne'⟩
    apply List.mem_append_left
    refine List.mem_map.mpr ⟨name, (List.mem_erase_of_ne hnm).mpr (mem_numericNames hmem), ?_⟩
    rw [hget, map_clipQ_eq hbounds]

/-- C5 witness: the three-column numeric table instantiates the Normalizer
theorem. -/
theorem C5_witness :
    (TypedDF.colNames normDF).Nodup ∧
    TypedDF.isEmpty normDF = false ∧
    "marker" ∈ TypedDF.colNames normDF ∧
    (∃ out, normalize_df (some normDF) true (some "marker") = some out ∧
      out.getLast? = some ("marker", TypedDF.getCol normDF "marker") ∧
      ∀ name l, (name, ColVals.nums l) ∈ normDF → name ≠ "marker" →
        (∀ x ∈ l, -clipBound ≤ x ∧ x ≤ clipBound) →
        ∃ vals, (name, ColVals.nums vals) ∈ out ∧
          (∀ v ∈ vals, 0 ≤ v ∧ v ≤ 1) ∧
          ((∃ a ∈ l, ∃ b ∈ l, a ≠ b) → qmin vals = 0 ∧ qmax vals = 1)) := by
  have h1 : (TypedDF.colNames normDF).Nodup := by decide
  have h2 : TypedDF.isEmpty normDF = false := by decide
  have h3 : "marker" ∈ TypedDF.colNames normDF := by decide
  exact ⟨h1, h2, h3, C5_normalize_df_minmax normDF "marker" h1 h2 h3⟩

/-! ### Claim C8 -/

/-- C8: the Normalizer returns an absent result when the input table is
absent (`None`) or empty, and when the designated label column is missing
from the table's columns (the designation happens in training mode, the
mode in which `normalize_df` receives a label column). -/
theorem C8_normalize_df_failure_cases (tm : Bool) (rm : Option String)
    (df : TypedDF) (m : String) :
    normalize_df none tm rm = none ∧
    (TypedDF.isEmpty df = true → normalize_df (some df) tm rm = none) ∧
    (m ∉ TypedDF.colNames df → normalize_df (some df) true (some m) = none) := by
  refine ⟨rfl, ?_, ?_⟩
  · intro h
    simp [normalize_df, h]
  · intro h
    simp [normalize_df, h]

/-- C8 witness: the failure cases at concrete inputs — an absent table, the
empty table, and a label column missing from the empty table. -/
theorem C8_witness :
    normalize_df none false none = none ∧
    (TypedDF.isEmpty ([] : TypedDF) = true ∧
      normalize_df (some ([] : TypedDF)) false none = none) ∧
    ("x" ∉ TypedDF.colNames ([] : TypedDF) ∧
      normalize_df (some ([] : TypedDF)) true (some "x") = none) :=
  ⟨(C8_normalize_df_failure_cases false none [] "x").1,
   ⟨rfl, (C8_normalize_df_failure_cases false none [] "x").2.1 rfl⟩,
   ⟨by simp [TypedDF.colNames],
    (C8_normalize_df_failure_cases false none [] "x").2.2 (by simp [TypedDF.colNames])⟩⟩

/-! ### Claim C7 -/

/-- C7: each candlestick-pattern detector assigns a boolean to every row of
a non-empty table (no null, no crash); the lookback-deficient leading rows
are false — rows 0 and 1 for morning star, row 0 for bullish engulfing;
the morning-star predicate at row `t ≥ 2` is exactly
`close[t-2] < open[t-2] ∧ open[t-1] < close[t-1] ∧ close[t] > open[t]`;
and the morning-star output is a pure function of the open/close input
rows (equal inputs give equal outputs). -/
theorem C7_pattern_detectors (df df' : Ohlcv) (hne : df.nrows ≠ 0) :
    ∃ ms be hm, find_ml_morning_star_patterns df = some ms ∧
      find_ml_bullish_engulfing_patterns df = some be ∧
      find_ml_hammer_patterns df = some hm ∧
      ms.length = df.nrows ∧ be.length = df.nrows ∧ hm.length = df.nrows ∧
      ms.getD 0 false = false ∧ ms.getD 1 false = false ∧ be.getD 0 false = false ∧
      (∀ t, 2 ≤ t → t < df.nrows →
        ms.getD t false =
          (decide (df.close.getD (t - 2) 0 < df.op.getD (t - 2) 0) &&
           decide (df.op.getD (t - 1) 0 < df.close.getD (t - 1) 0) &&
           decide (df.op.getD t 0 < df.close.getD t 0))) ∧
      (df.op = df'.op → df.close = df'.close →
        find_ml_morning_star_patterns df = find_ml_morning_star_patterns df') := by
  have h0 : 0 < df.nrows := Nat.pos_of_ne_zero hne
  refine ⟨(List.range df.nrows).map (morning_star df),
    (List.range df.nrows).map (bullish_engulfing df),
    (List.range df.nrows).map (hammer df),
    ?_, ?_, ?_, by simp, by simp, by simp, ?_, ?_, ?_, ?_, ?_⟩
  · simp [find_ml_morning_star_patterns, hne]
  · simp [find_ml_bullish_engulfing_patterns, hne]
  · simp [find_ml_hammer_patterns, hne]
  · rw [getD_map_range _ _ _ _ h0]
    simp [morning_star, shiftAt, oLt]
  · by_cases h1 : 1 < df.nrows
    · rw [getD_map_range _ _ _ _ h1]
      simp [morning_star, shiftAt, oLt]
    · apply List.getD_eq_default
      simp
      omega
  · rw [getD_map_range _ _ _ _ h0]
    simp [bullish_engulfing, shiftAt, oGt]
  · intro t ht2 htn
    have ht1 : 1 ≤ t := by omega
    rw [getD_map_range _ _ _ _ htn]
    simp [morning_star, shiftAt, oLt, ht2, ht1]
  · intro hop hcl
    unfold find_ml_morning_star_patterns Ohlcv.nrows morning_star
    rw [hop, hcl]

/-- C7 witness: the repository's own five-row OHLCV test fixture. -/
theorem C7_witness :
    ohlcvDF.nrows ≠ 0 ∧
    (∃ ms be hm, find_ml_morning_star_patterns ohlcvDF = some ms ∧
      find_ml_bullish_engulfing_patterns ohlcvDF = some be ∧
      find_ml_hammer_patterns ohlcvDF = some hm ∧
      ms.length = ohlcvDF.nrows ∧ be.length = ohlcvDF.nrows ∧
      hm.length = ohlcvDF.nrows ∧
      ms.getD 0 false = false ∧ ms.getD 1 false = false ∧ be.getD 0 false = false ∧
      (∀ t, 2 ≤ t → t < ohlcvDF.nrows →
        ms.getD t false =
          (decide (ohlcvDF.close.getD (t - 2) 0 < ohlcvDF.op.getD (t - 2) 0) &&
           decide (ohlcvDF.op.getD (t - 1) 0 < ohlcvDF.close.getD (t - 1) 0) &&
           decide (ohlcvDF.op.getD t 0 < ohlcvDF.close.getD t 0))) ∧
      (ohlcvDF.op = ohlcvDF.op → ohlcvDF.close = ohlcvDF.close →
        find_ml_morning_star_patterns ohlcvDF = find_ml_morning_star_patterns ohlcvDF)) :=
  ⟨by decide, C7_pattern_detectors ohlcvDF ohlcvDF (by decide)⟩

/-! ### Claim C9 -/

/-- Folding per-helper mutations at a fixed reference preserves the heap's
length, leaves every other cell untouched, and leaves in the referenced
cell the pure fold of the helpers over its initial value. -/
theorem foldl_applyStepAt (r : ℕ) :
    ∀ (body : List (PDF → PDF)) (hp : List PDF), r < hp.length →
      (body.foldl (fun h f => applyStepAt f h r) hp).length = hp.length ∧
      (∀ q, q ≠ r →
        heapGet (body.foldl (fun h f => applyStepAt f h r) hp) q = heapGet hp q) ∧
      heapGet (body.foldl (fun h f => applyStepAt f h r) hp) r =
        body.foldl (fun d f => f d) (heapGet hp r) := by
  intro body
  induction body with
  | nil => intro hp hr; exact ⟨rfl, fun _ _ => rfl, rfl⟩
  | cons f fs ih =>
    intro hp hr
    have hlen : (applyStepAt f hp r).length = hp.length := by
      simp [applyStepAt]
    obtain ⟨h1, h2, h3⟩ := ih (applyStepAt f hp r) (by rw [hlen]; exact hr)
    refine ⟨?_, ?_, ?_⟩
    · rw [List.foldl_cons]
      exact h1.trans hlen
    · intro q hq
      rw [List.foldl_cons, h2 q hq]
      unfold heapGet applyStepAt
      rw [List.getElem?_set_ne (Ne.symm hq)]
    · rw [List.foldl_cons, h3, List.foldl_cons]
      congr 1
      unfold heapGet applyStepAt
      rw [List.getElem?_set_self hr]
      rfl

/-- C9: `prepare_ml_df` is a pure function of its inputs at the frame
level: it leaves the caller's input table object unmodified (the result is
built on a fresh copy, `result = df.copy()`), and its output object is
determined by the input table's value alone (the fold of the body's column
computations over that value), so repeated calls on equal inputs produce
equal output columns. -/
theorem C9_prepare_ml_df_frame (body : List (PDF → PDF)) (heap : List PDF)
    (dfRef : ℕ) (hlt : dfRef < heap.length)
    (hne : (heapGet heap dfRef).rows.isEmpty = false) :
    ∃ hp, prepare_ml_df body heap dfRef true = (hp, some heap.length) ∧
      heapGet hp dfRef = heapGet heap dfRef ∧
      heapGet hp heap.length = body.foldl (fun d f => f d) (heapGet heap dfRef) := by
  have hr : heap.length < (heap ++ [heapGet heap dfRef]).length := by simp
  obtain ⟨h1, h2, h3⟩ :=
    foldl_applyStepAt heap.length body (heap ++ [heapGet heap dfRef]) hr
  refine ⟨body.foldl (fun h f => applyStepAt f h heap.length)
      (heap ++ [heapGet heap dfRef]), ?_, ?_, ?_⟩
  · simp [prepare_ml_df, hne]
  · rw [h2 dfRef (by omega)]
    unfold heapGet
    rw [List.getElem?_append_left hlt]
  · rw [h3]
    congr 1
    unfold heapGet
    rw [List.getElem?_append_right (le_refl heap.length)]
    simp

/-- C9 witness: a one-object heap with an empty helper body — the input
object is untouched and the result object equals the input value. -/
theorem C9_witness :
    0 < [onePDF].length ∧ (heapGet [onePDF] 0).rows.isEmpty = false ∧
    (∃ hp, prepare_ml_df [] [onePDF] 0 true = (hp, some [onePDF].length) ∧
      heapGet hp 0 = heapGet [onePDF] 0 ∧
      heapGet hp [onePDF].length =
        ([] : List (PDF → PDF)).foldl (fun d f => f d) (heapGet [onePDF] 0)) :=
  ⟨by decide, by decide,
   C9_prepare_ml_df_frame [] [onePDF] 0 (by decide) (by decide)⟩

end Mariola
